import Mathlib

/-!
Verification development for a Telegram movie-tracker bot (Go, single file).

The Go source is shallowly embedded:
- Go structs become Lean structures; `int`/`int64` become `Int` (no claim
  depends on 64-bit overflow), byte strings become `List Nat` where the code
  indexes bytes, and `float64` popularity scores become `Rat` (JSON cannot
  encode NaN/Inf, so decoded scores are always ordinary finite numbers).
- The process-wide `conversationStates` map becomes an association list with
  Go map semantics (set overwrites, delete removes).
- The sqlite table `watched` becomes a list of rows in rowid (insertion)
  order; `INSERT` appends, `SELECT ... LIMIT`-free `QueryRow` returns the
  first row in scan order, `UPDATE ... WHERE` maps over all matching rows.
- Fallible externals (HTTP fetch + JSON decode, sql Exec) are passed in as
  `Option` values / a search oracle function / a success flag.
- `sendMessage`/`sendPhoto` become a `Msg` value; the poster re-fetch in the
  episode flow only decides text-vs-photo, the caption text is identical.
-/

namespace TgBot

/-- One element of the `results` array of a decoded TMDb response
(struct literal inside `TMDBResponse` in the Go source). -/
structure TMDBResult where
  ID : Int
  Title : String
  Name : String
  MediaType : String
  ReleaseDate : String
  FirstAirDate : String
  Overview : String
  PosterPath : String
  Popularity : Rat
deriving DecidableEq

/-- `TMDBResponse` from the Go source. -/
structure TMDBResponse where
  Results : List TMDBResult
deriving DecidableEq

/-- One row of the `watched` sqlite table (the auto-increment `id` column is
represented by the row's position: list order is rowid scan order). -/
structure Row where
  title : String
  media_type : String
  tmdb_id : Int
  user_id : Int
  watched_at : Nat
  current_episode : Int
deriving DecidableEq

/-- `ConversationState` from the Go source. -/
structure ConversationState where
  AwaitingEpisode : Bool
  TMDBID : Int
  Title : String
  MediaType : String
deriving DecidableEq

/-- An outbound reply: `sendMessage` or `sendPhoto` (url + caption). -/
inductive Msg where
  | text (body : String)
  | photo (url : String) (caption : String)
deriving DecidableEq

/-- The `conversationStates` map, as an association list keyed by chat id. -/
abbrev StateMap := List (Int × ConversationState)

/-- Go map read `conversationStates[chatID]`. -/
def lookupState : StateMap → Int → Option ConversationState
  | [], _ => none
  | (k, v) :: rest, chatID => if k = chatID then some v else lookupState rest chatID

/-- Go `delete(conversationStates, chatID)`. -/
def eraseState : StateMap → Int → StateMap
  | [], _ => []
  | (k, v) :: rest, chatID =>
    if k = chatID then eraseState rest chatID else (k, v) :: eraseState rest chatID

/-- Go map write `conversationStates[chatID] = state` (overwrites). -/
def setState (m : StateMap) (chatID : Int) (st : ConversationState) : StateMap :=
  (chatID, st) :: eraseState m chatID

/-- `func min(a, b int) int` from the Go source (used only on list lengths,
which are non-negative, so it is embedded at type `Nat`). -/
def goMin (a b : Nat) : Nat :=
  if a < b then a else b

/-- `func limitString(s string, n int) string`. Go strings are byte strings
and `s[:n]` slices bytes, so the embedding works on the byte list; `46` is
the byte of the dot character, `s[:n] + "..."` appends three of them. -/
def limitString (s : List Nat) (n : Nat) : List Nat :=
  if s.length ≤ n then s else s.take n ++ [46, 46, 46]

/-- `true` when the byte is a UTF-8 continuation byte (`10xxxxxx`). -/
def isContByte (b : Nat) : Bool :=
  128 ≤ b && b ≤ 191

/-- RFC 3629 UTF-8 validity of a byte sequence (well-formed table:
overlong encodings, surrogates and values above U+10FFFF are invalid). -/
def validUTF8 : List Nat → Bool
  | [] => true
  | b :: rest =>
    if b ≤ 127 then validUTF8 rest
    else
      match rest with
      | [] => false
      | c1 :: r1 =>
        if 194 ≤ b && b ≤ 223 then isContByte c1 && validUTF8 r1
        else
          match r1 with
          | [] => false
          | c2 :: r2 =>
            if b = 224 then (160 ≤ c1 && c1 ≤ 191) && isContByte c2 && validUTF8 r2
            else if (225 ≤ b && b ≤ 236) || b = 238 || b = 239 then
              isContByte c1 && isContByte c2 && validUTF8 r2
            else if b = 237 then (128 ≤ c1 && c1 ≤ 159) && isContByte c2 && validUTF8 r2
            else
              match r2 with
              | [] => false
              | c3 :: r3 =>
                if b = 240 then
                  (144 ≤ c1 && c1 ≤ 191) && isContByte c2 && isContByte c3 && validUTF8 r3
                else if 241 ≤ b && b ≤ 243 then
                  isContByte c1 && isContByte c2 && isContByte c3 && validUTF8 r3
                else if b = 244 then
                  (128 ≤ c1 && c1 ≤ 143) && isContByte c2 && isContByte c3 && validUTF8 r3
                else false

/-- The kind-stamping loop shared by `getTopMovies` / `getTopTVShows`:
`for i := range response.Results { response.Results[i].MediaType = mt }`. -/
def stampResults (mt : String) (l : List TMDBResult) : List TMDBResult :=
  l.map (fun r => { r with MediaType := mt })

/-- `func getTopMovies() (TMDBResponse, error)`: the HTTP GET + JSON decode
is external, so the decoded body (or its failure) is the argument; on
success every result's `MediaType` is overwritten with the movie tag. -/
def getTopMovies (decoded : Option TMDBResponse) : Option TMDBResponse :=
  match decoded with
  | none => none
  | some resp => some ⟨stampResults ("movie") resp.Results⟩

/-- `func getTopTVShows() (TMDBResponse, error)`, as for `getTopMovies`. -/
def getTopTVShows (decoded : Option TMDBResponse) : Option TMDBResponse :=
  match decoded with
  | none => none
  | some resp => some ⟨stampResults ("tv") resp.Results⟩

/-- C7: every result of a successfully decoded popular-movies listing
carries kind "movie" and every result of a successfully decoded
popular-shows listing carries kind "tv", whatever kind values the decoded
responses themselves carried: the client stamps the kind after decoding. -/
theorem popularListings_stampKind (mresp sresp : TMDBResponse) :
    (∀ m, getTopMovies (some mresp) = some m →
      ∀ r, r ∈ m.Results → r.MediaType = "movie") ∧
    (∀ s, getTopTVShows (some sresp) = some s →
      ∀ r, r ∈ s.Results → r.MediaType = "tv") := by
  constructor
  · intro m hm r hr
    simp only [getTopMovies, Option.some.injEq] at hm
    subst hm
    simp only [stampResults, List.mem_map] at hr
    obtain ⟨r0, _, hr0⟩ := hr
    subst hr0
    rfl
  · intro s hs r hr
    simp only [getTopTVShows, Option.some.injEq] at hs
    subst hs
    simp only [stampResults, List.mem_map] at hr
    obtain ⟨r0, _, hr0⟩ := hr
    subst hr0
    rfl

/-- A decoded result whose self-reported kind is neither movie nor tv. -/
def oddResult : TMDBResult :=
  ⟨7, "X", "X", "person", "", "", "", "", 1⟩

theorem popularListings_stampKind_witness :
    ∀ r, r ∈ (⟨stampResults ("movie") [oddResult]⟩ : TMDBResponse).Results →
      r.MediaType = "movie" :=
  (popularListings_stampKind ⟨[oddResult]⟩ ⟨[oddResult]⟩).1 _ rfl

/-- C9: `limitString` returns `s` unchanged when the byte length of `s` is
at most `n`, and otherwise the first `n` bytes of `s` followed by "..."
(bytes 46,46,46); hence the output is at most `n + 3` bytes long; and the
cut being byte-indexed, it can split a multi-byte UTF-8 character: the
valid 3-byte string `"aя"` (bytes 97,209,143) truncated at 2 keeps the
dangling lead byte 209, a byte prefix that is not valid UTF-8. -/
theorem limitString_spec (s : List Nat) (n : Nat) :
    (s.length ≤ n → limitString s n = s) ∧
    (n < s.length → limitString s n = s.take n ++ [46, 46, 46]) ∧
    (limitString s n).length ≤ n + 3 ∧
    (validUTF8 [97, 209, 143] = true ∧
      limitString [97, 209, 143] 2 = [97, 209, 46, 46, 46] ∧
      validUTF8 (([97, 209, 143] : List Nat).take 2) = false) := by
  refine ⟨?_, ?_, ?_, by decide, by decide, by decide⟩
  · intro h
    simp [limitString, h]
  · intro h
    simp [limitString, Nat.not_le.mpr h]
  · by_cases h : s.length ≤ n
    · simpa [limitString, h] using Nat.le_trans h (Nat.le_add_right n 3)
    · have hlt : n < s.length := Nat.not_le.mp h
      have hmin : min n s.length = n := Nat.min_eq_left (Nat.le_of_lt hlt)
      simp only [limitString, if_neg h, List.length_append, List.length_take, hmin,
        List.length_cons, List.length_nil]
      omega

theorem limitString_spec_witness :
    limitString [97, 209, 143] 2 = ([97, 209, 143] : List Nat).take 2 ++ [46, 46, 46] :=
  (limitString_spec [97, 209, 143] 2).2.1 (by decide)

/-- Go `unicode.IsSpace` restricted to the Latin-1 range (the only code
points it accepts below U+1000 besides the ogham/ideographic spaces). -/
def isSpaceGo (c : Char) : Bool :=
  c.toNat = 32 || c.toNat = 9 || c.toNat = 10 || c.toNat = 11 ||
    c.toNat = 12 || c.toNat = 13 || c.toNat = 133 || c.toNat = 160

/-- Worker for `strings.Fields`: `acc` holds the current word reversed. -/
def fieldsAux (acc : List Char) : List Char → List (List Char)
  | [] => if acc = [] then [] else [acc.reverse]
  | c :: rest =>
    if isSpaceGo c then
      if acc = [] then fieldsAux [] rest else acc.reverse :: fieldsAux [] rest
    else fieldsAux (c :: acc) rest

/-- `strings.Fields` on a character list. -/
def fieldsChars (s : List Char) : List (List Char) :=
  fieldsAux [] s

/-- `strings.Fields(query)` from the Go source. -/
def fields (s : String) : List String :=
  (fieldsChars s.data).map (fun cs => String.mk cs)

/-- `strings.Join(parts, " ")` from the Go source. -/
def joinSpace : List String → String
  | [] => ""
  | [s] => s
  | s :: rest => s ++ " " ++ joinSpace rest

/-- `true` exactly on the decimal digit characters. -/
def isDigitGo (c : Char) : Bool :=
  48 ≤ c.toNat && c.toNat ≤ 57

/-- Accumulating decimal evaluation of a digit run; `none` on the first
non-digit character. -/
def parseDigitsAcc (acc : Nat) : List Char → Option Nat
  | [] => some acc
  | c :: rest =>
    if isDigitGo c then parseDigitsAcc (acc * 10 + (c.toNat - 48)) rest else none

/-- Evaluates a non-empty all-digit character run, `none` otherwise. -/
def parseDigits : List Char → Option Nat
  | [] => none
  | c :: rest => parseDigitsAcc 0 (c :: rest)

/-- `strconv.Atoi`: optional sign then one or more decimal digits, error on
anything else (64-bit overflow is not modelled; no claim depends on it). -/
def atoi (s : String) : Option Int :=
  match s.data with
  | [] => none
  | c :: rest =>
    if c = '+' then (parseDigits rest).map (fun n => (n : Int))
    else if c = '-' then (parseDigits rest).map (fun n => -(n : Int))
    else (parseDigits (c :: rest)).map (fun n => (n : Int))

/-- `true` when the first list is a leading run of the second. Go
`strings.HasPrefix` compares bytes; every pattern used by the dispatcher is
ASCII, where bytes and characters coincide. -/
def leadsChars : List Char → List Char → Bool
  | [], _ => true
  | _ :: _, [] => false
  | p :: ps, c :: cs => p = c && leadsChars ps cs

/-- `strings.HasPrefix(s, pat)`. -/
def hasPre (s pat : String) : Bool :=
  leadsChars pat.data s.data

/-- `strings.TrimPrefix(s, pat)`: drops the leading run when present,
otherwise returns `s` unchanged. -/
def trimPre (s pat : String) : String :=
  if leadsChars pat.data s.data then String.mk (s.data.drop pat.data.length) else s

/-- First character of a string, if any. -/
def strHead (s : String) : Option Char :=
  s.data.head?

theorem strData_append (s t : String) : (s ++ t).data = s.data ++ t.data :=
  rfl

theorem strHead_append (s t : String) (c : Char) (h : strHead s = some c) :
    strHead (s ++ t) = some c := by
  unfold strHead at h ⊢
  rw [strData_append]
  cases hd : s.data with
  | nil => rw [hd] at h; exact absurd h (by simp)
  | cons a as => rw [hd] at h; simpa using h

theorem strNe_of_strHead (s t : String) (h : strHead s ≠ strHead t) : s ≠ t :=
  fun e => h (e ▸ rfl)

/-- "https://image.tmdb.org/t/p/w500%s" applied to a poster path. -/
def posterURL (p : String) : String :=
  "https://image.tmdb.org/t/p/w500" ++ p

def addUsageMsg : String :=
  "Укажите название фильма или сериала: /add <название>"

def notFoundFor (q : String) : String :=
  "Ничего не найдено для: " ++ q

def askEpisodeMsg (title : String) : String :=
  "Вы добавляете сериал *" ++ title ++
    "*. Укажите номер последней просмотренной серии (например, 5):"

def dbSaveErrorMsg : String :=
  "Ошибка сохранения в базу данных"

def addedMovieMsg (title mt : String) : String :=
  "Добавлено *" ++ title ++ "* (" ++ mt ++ ") в ваш список просмотренного!"

def invalidEpisodeMsg : String :=
  "Пожалуйста, укажите корректный номер серии (целое число, например, 5):"

def addedShowMsg (title : String) (ep : Int) : String :=
  "Добавлено *" ++ title ++ "* (сериал, серия " ++ toString ep ++
    ") в ваш список просмотренного!"

def updateUsageMsg : String :=
  "Укажите название сериала и номер серии: /update <название> <номер серии>"

def badEpisodeMsg : String :=
  "Укажите корректный номер серии (целое число, например, 5)"

def notFoundUpdateMsg : String :=
  "Сериал не найден в вашем списке просмотренного"

def wrongKindMsg : String :=
  "Это не сериал. Используйте /update только для сериалов"

def updateDbErrorMsg : String :=
  "Ошибка обновления номера серии"

def updatedMsg (title : String) (ep : Int) : String :=
  "Обновлено: *" ++ title ++ "* (сериал, серия " ++ toString ep ++ ")"

/-- `SELECT tmdb_id, media_type FROM watched WHERE user_id = ? AND title = ?`
via `QueryRow`: the first row in scan order matching user and title (the
whole row is returned here; the Go code scans two of its columns). -/
def findRow : List Row → Int → String → Option Row
  | [], _, _ => none
  | r :: rest, uid, t =>
    if r.user_id = uid ∧ r.title = t then some r else findRow rest uid t

/-- Effect of the `UPDATE` statement on one row: the episode is overwritten
exactly when the row matches the user and catalog id. -/
def updRow (uid tid ep : Int) (r : Row) : Row :=
  if r.user_id = uid ∧ r.tmdb_id = tid then { r with current_episode := ep } else r

/-- `UPDATE watched SET current_episode = ? WHERE user_id = ? AND tmdb_id = ?`:
overwrites the episode of every row matching user and catalog id. -/
def updateEpisodeRows (db : List Row) (uid tid ep : Int) : List Row :=
  db.map (updRow uid tid ep)

/-- `func handleAdd(chatID int64, query string)`. The `searchTMDB` call is
the oracle `searchFn` (`none` = network/decode error); `insertOk` is the
outcome of the `INSERT`; `now` is `time.Now()`. Returns the reply together
with the new conversation map and table. -/
def handleAdd (chatID : Int) (query : String)
    (searchFn : String → Option (List TMDBResult))
    (states : StateMap) (db : List Row) (insertOk : Bool) (now : Nat) :
    Msg × StateMap × List Row :=
  if query = "" then (.text addUsageMsg, states, db)
  else
    match searchFn query with
    | none => (.text (notFoundFor query), states, db)
    | some [] => (.text (notFoundFor query), states, db)
    | some (result :: _) =>
      let title := if result.MediaType = "tv" then result.Name else result.Title
      let mediaTypeStr := if result.MediaType = "tv" then "сериал" else "фильм"
      if result.MediaType = "tv" then
        (.text (askEpisodeMsg title),
          setState states chatID ⟨true, result.ID, title, result.MediaType⟩,
          db)
      else if insertOk then
        (if result.PosterPath ≠ "" then
            .photo (posterURL result.PosterPath) (addedMovieMsg title mediaTypeStr)
          else .text (addedMovieMsg title mediaTypeStr),
          states,
          db ++ [⟨title, result.MediaType, result.ID, chatID, now, 0⟩])
      else (.text dbSaveErrorMsg, states, db)

/-- `func handleEpisodeInput(chatID int64, text string, state ConversationState)`.
`searchFn` is the best-effort poster re-fetch (it only chooses photo vs
text: the caption is the same either way); `insertOk` the `INSERT` outcome. -/
def handleEpisodeInput (chatID : Int) (text : String) (state : ConversationState)
    (searchFn : String → Option (List TMDBResult))
    (states : StateMap) (db : List Row) (insertOk : Bool) (now : Nat) :
    Msg × StateMap × List Row :=
  match atoi text with
  | none => (.text invalidEpisodeMsg, states, db)
  | some ep =>
    if ep < 0 then (.text invalidEpisodeMsg, states, db)
    else if insertOk then
      let confirm := addedShowMsg state.Title ep
      let states' := eraseState states chatID
      let db' := db ++ [⟨state.Title, state.MediaType, state.TMDBID, chatID, now, ep⟩]
      match searchFn state.Title with
      | some (r :: _) =>
        if r.ID = state.TMDBID ∧ r.PosterPath ≠ "" then
          (.photo (posterURL r.PosterPath) confirm, states', db')
        else (.text confirm, states', db')
      | _ => (.text confirm, states', db')
    else (.text dbSaveErrorMsg, states, db)

/-- Lines 391-412 of `handleUpdate`: lookup by user + title, kind check,
episode overwrite (`execOk` is the outcome of the `UPDATE` statement). -/
def handleUpdateCore (chatID : Int) (title : String) (ep : Int)
    (db : List Row) (execOk : Bool) : String × List Row :=
  match findRow db chatID title with
  | none => (notFoundUpdateMsg, db)
  | some r =>
    if r.media_type ≠ "tv" then (wrongKindMsg, db)
    else if execOk then (updatedMsg title ep, updateEpisodeRows db chatID r.tmdb_id ep)
    else (updateDbErrorMsg, db)

/-- `func handleUpdate(chatID int64, query string)`: split into fields, the
trailing token is the episode number, the rest joined by single spaces is
the title; then `handleUpdateCore`. -/
def handleUpdate (chatID : Int) (query : String) (db : List Row) (execOk : Bool) :
    String × List Row :=
  if query = "" then (updateUsageMsg, db)
  else
    let parts := fields query
    if parts.length < 2 then (updateUsageMsg, db)
    else
      match atoi (parts.getLastD ("")) with
      | none => (badEpisodeMsg, db)
      | some ep =>
        if ep < 0 then (badEpisodeMsg, db)
        else handleUpdateCore chatID (joinSpace parts.dropLast) ep db execOk

/-- Where the dispatcher sends an inbound text. -/
inductive Route where
  | episodeInput (st : ConversationState)
  | start
  | add (query : String)
  | list
  | search (query : String)
  | top
  | update (query : String)
  | unknown
deriving DecidableEq

/-- The `switch` of the main update loop (lines 131-146). -/
def routeCommand (text : String) : Route :=
  if text = "/start" then .start
  else if hasPre text ("/add") then .add (trimPre text ("/add "))
  else if text = "/list" then .list
  else if hasPre text ("/search") then .search (trimPre text ("/search "))
  else if text = "/top" then .top
  else if hasPre text ("/update") then .update (trimPre text ("/update "))
  else .unknown

/-- Lines 125-129 then the `switch`: a pending conversation state with the
awaiting-episode flag set short-circuits command matching. -/
def route (states : StateMap) (chatID : Int) (text : String) : Route :=
  match lookupState states chatID with
  | some st => if st.AwaitingEpisode then .episodeInput st else routeCommand text
  | none => routeCommand text

theorem lookupState_setState (m : StateMap) (k : Int) (v : ConversationState) :
    lookupState (setState m k v) k = some v := by
  simp [setState, lookupState]

theorem lookupState_eraseState (m : StateMap) (k : Int) :
    lookupState (eraseState m k) k = none := by
  induction m with
  | nil => rfl
  | cons p rest ih =>
    obtain ⟨k', v⟩ := p
    by_cases h : k' = k
    · simpa [eraseState, h] using ih
    · simp [eraseState, h, lookupState, ih]

theorem updRow_user_id (uid tid ep : Int) (r : Row) :
    (updRow uid tid ep r).user_id = r.user_id := by
  unfold updRow
  split <;> rfl

theorem updRow_title (uid tid ep : Int) (r : Row) :
    (updRow uid tid ep r).title = r.title := by
  unfold updRow
  split <;> rfl

/-- A successful scan hit satisfies the `WHERE` predicate. -/
theorem findRow_matches (db : List Row) (uid : Int) (t : String) (r : Row)
    (h : findRow db uid t = some r) : r.user_id = uid ∧ r.title = t := by
  induction db with
  | nil => exact absurd h (by simp [findRow])
  | cons a rest ih =>
    rw [findRow] at h
    by_cases hp : a.user_id = uid ∧ a.title = t
    · rw [if_pos hp] at h
      injection h with h'
      subst h'
      exact hp
    · rw [if_neg hp] at h
      exact ih h

/-- The episode update keeps every row's user id and title, so the first
scan match after the update is the updated image of the first match before
it. -/
theorem findRow_updateEpisodeRows (db : List Row) (uid tid ep : Int)
    (t : String) (r : Row) (h : findRow db uid t = some r) :
    findRow (updateEpisodeRows db uid tid ep) uid t =
      some (updRow uid tid ep r) := by
  induction db with
  | nil => exact absurd h (by simp [findRow])
  | cons a rest ih =>
    rw [findRow] at h
    simp only [updateEpisodeRows, List.map_cons, findRow, updRow_user_id, updRow_title]
    by_cases hp : a.user_id = uid ∧ a.title = t
    · rw [if_pos hp] at h ⊢
      injection h with h'
      rw [h']
    · rw [if_neg hp] at h ⊢
      simpa [updateEpisodeRows] using ih h

/-- C2: for a well-formed `/update` (at least two whitespace-delimited
fields, trailing field a non-negative integer): no stored entry matching
sender+title ⇒ the not-found reply and an unchanged table; a match of kind
other than "tv" ⇒ the wrong-kind reply and an unchanged table; a match of
kind "tv" ⇒ the matched entry's current episode is overwritten with the
given number. -/
theorem handleUpdate_spec (chatID : Int) (query title : String) (ep : Int)
    (db : List Row) (ok : Bool)
    (hq : query ≠ "")
    (hlen : 2 ≤ (fields query).length)
    (hep : atoi ((fields query).getLastD ("")) = some ep)
    (hpos : 0 ≤ ep)
    (ht : title = joinSpace (fields query).dropLast) :
    (findRow db chatID title = none →
      handleUpdate chatID query db ok = (notFoundUpdateMsg, db)) ∧
    (∀ r, findRow db chatID title = some r → r.media_type ≠ "tv" →
      handleUpdate chatID query db ok = (wrongKindMsg, db)) ∧
    (∀ r, findRow db chatID title = some r → r.media_type = "tv" → ok = true →
      handleUpdate chatID query db ok =
        (updatedMsg title ep, updateEpisodeRows db chatID r.tmdb_id ep) ∧
      findRow (updateEpisodeRows db chatID r.tmdb_id ep) chatID title =
        some { r with current_episode := ep }) := by
  have hlen' : ¬ (fields query).length < 2 := Nat.not_lt.mpr hlen
  have hpos' : ¬ ep < 0 := not_lt.mpr hpos
  have hu : handleUpdate chatID query db ok = handleUpdateCore chatID title ep db ok := by
    rw [ht]
    simp only [handleUpdate]
    rw [if_neg hq, if_neg hlen', hep]
    dsimp only
    rw [if_neg hpos']
  refine ⟨?_, ?_, ?_⟩
  · intro hfind
    rw [hu]
    simp [handleUpdateCore, hfind]
  · intro r hfind hkind
    rw [hu]
    simp [handleUpdateCore, hfind, hkind]
  · intro r hfind hkind hok
    subst hok
    constructor
    · rw [hu]
      simp [handleUpdateCore, hfind, hkind]
    · have hfr := findRow_updateEpisodeRows db chatID r.tmdb_id ep title r hfind
      have hr : r.user_id = chatID := (findRow_matches db chatID title r hfind).1
      rw [hfr]
      simp [updRow, hr]

/-- A concrete stored show used by the `/update` witness. -/
def bbRow : Row := ⟨"Breaking Bad", "tv", 1396, 42, 0, 3⟩

theorem handleUpdate_spec_witness :
    handleUpdate 42 ("Breaking Bad 7") [bbRow] true =
      (updatedMsg ("Breaking Bad") 7, [{ bbRow with current_episode := 7 }]) := by
  have h := handleUpdate_spec 42 ("Breaking Bad 7") ("Breaking Bad") 7 [bbRow] true
    (by decide) (by decide) (by decide) (by decide) (by decide)
  exact ((h.2.2 bbRow (by decide) rfl rfl).1).trans (by decide)

/-- C3: while a user is awaiting an episode number, any text that is not a
valid episode number (integer parse failure, or a negative value) leaves
the conversation map and the table untouched and re-sends the same error
prompt; iterating over arbitrarily many consecutive invalid inputs through
the dispatcher's short-circuit still leaves both untouched. -/
theorem invalidEpisode_keepsState (chatID : Int) (state : ConversationState)
    (searchFn : String → Option (List TMDBResult))
    (states : StateMap) (db : List Row) (ok : Bool) (now : Nat)
    (hlook : lookupState states chatID = some state)
    (hawait : state.AwaitingEpisode = true) :
    (∀ text, (atoi text = none ∨ ∃ ep, atoi text = some ep ∧ ep < 0) →
      handleEpisodeInput chatID text state searchFn states db ok now
        = (.text invalidEpisodeMsg, states, db)) ∧
    (∀ texts : List String,
      (∀ t ∈ texts, atoi t = none ∨ ∃ ep, atoi t = some ep ∧ ep < 0) →
      texts.foldl
        (fun acc t =>
          match lookupState acc.1 chatID with
          | some st =>
            if st.AwaitingEpisode then
              ((handleEpisodeInput chatID t st searchFn acc.1 acc.2 ok now).2.1,
                (handleEpisodeInput chatID t st searchFn acc.1 acc.2 ok now).2.2)
            else acc
          | none => acc)
        (states, db) = (states, db)) := by
  have single : ∀ text, (atoi text = none ∨ ∃ ep, atoi text = some ep ∧ ep < 0) →
      handleEpisodeInput chatID text state searchFn states db ok now
        = (.text invalidEpisodeMsg, states, db) := by
    intro text h
    rcases h with h | ⟨ep, hep, hneg⟩
    · simp [handleEpisodeInput, h]
    · simp [handleEpisodeInput, hep, hneg]
  refine ⟨single, ?_⟩
  intro texts
  induction texts with
  | nil => intro _; rfl
  | cons t ts ih =>
    intro hall
    rw [List.foldl_cons]
    have hstep :
        (match lookupState states chatID with
          | some st =>
            if st.AwaitingEpisode then
              ((handleEpisodeInput chatID t st searchFn states db ok now).2.1,
                (handleEpisodeInput chatID t st searchFn states db ok now).2.2)
            else (states, db)
          | none => (states, db)) = (states, db) := by
      rw [hlook]
      simp only [hawait, if_true]
      rw [single t (hall t (List.mem_cons_self t ts))]
    rw [hstep]
    exact ih (fun u hu => hall u (List.mem_cons_of_mem t hu))

/-- A pending conversation state used by several witnesses. -/
def pendState : ConversationState := ⟨true, 1396, "Breaking Bad", "tv"⟩

theorem invalidEpisode_keepsState_witness :
    handleEpisodeInput 7 ("abc") pendState (fun _ => none) [(7, pendState)] [] true 0
      = (.text invalidEpisodeMsg, [(7, pendState)], []) :=
  (invalidEpisode_keepsState 7 pendState (fun _ => none) [(7, pendState)] [] true 0
    (by decide) rfl).1 ("abc") (Or.inl (by decide))

/-- C4: when the first catalog match of an `/add` has kind "movie", the
conversation map is untouched and (when the insert succeeds) the entry is
persisted immediately with current episode 0; when the first match has kind
"tv", a pending awaiting-episode state holding the match's catalog id,
title and kind is written for that user (overwriting any prior state) and
the table is untouched. -/
theorem handleAdd_stateDiscipline (chatID : Int) (query : String)
    (searchFn : String → Option (List TMDBResult))
    (states : StateMap) (db : List Row) (ok : Bool) (now : Nat)
    (r : TMDBResult) (rest : List TMDBResult)
    (hq : query ≠ "") (hs : searchFn query = some (r :: rest)) :
    (r.MediaType = "movie" →
      (handleAdd chatID query searchFn states db ok now).2.1 = states ∧
      (ok = true →
        handleAdd chatID query searchFn states db ok now =
          ((if r.PosterPath ≠ "" then
              .photo (posterURL r.PosterPath) (addedMovieMsg r.Title ("фильм"))
            else .text (addedMovieMsg r.Title ("фильм"))),
            states,
            db ++ [⟨r.Title, "movie", r.ID, chatID, now, 0⟩]))) ∧
    (r.MediaType = "tv" →
      handleAdd chatID query searchFn states db ok now =
        (.text (askEpisodeMsg r.Name),
          setState states chatID ⟨true, r.ID, r.Name, "tv"⟩, db) ∧
      lookupState (setState states chatID ⟨true, r.ID, r.Name, "tv"⟩) chatID
        = some ⟨true, r.ID, r.Name, "tv"⟩) := by
  constructor
  · intro hm
    constructor
    · cases ok <;> simp [handleAdd, hq, hs, hm]
    · intro hok
      subst hok
      simp [handleAdd, hq, hs, hm]
  · intro hm
    refine ⟨?_, lookupState_setState states chatID _⟩
    rw [← hm]
    simp [handleAdd, hq, hs, hm]

/-- A concrete catalog movie used by the `/add` witness. -/
def inceptionR : TMDBResult :=
  ⟨27205, "Начало", "", "movie", "2010-07-15", "", "", "/poster.jpg", 50⟩

theorem handleAdd_stateDiscipline_witness :
    handleAdd 5 ("Inception") (fun _ => some [inceptionR]) [] [] true 3
      = (.photo (posterURL ("/poster.jpg")) (addedMovieMsg ("Начало") ("фильм")), [],
          [⟨"Начало", "movie", 27205, 5, 3, 0⟩]) := by
  have h := (handleAdd_stateDiscipline 5 ("Inception") (fun _ => some [inceptionR])
    [] [] true 3 inceptionR [] (by decide) rfl).1 rfl
  exact (h.2 rfl).trans (by decide)

/-- C5: whenever a pending conversation state with the awaiting-episode
flag set exists for a sender, the dispatcher routes that sender's next
inbound text — whatever it is, including text beginning with "/" — to the
episode-input handler, never to command matching. -/
theorem route_pendingShortCircuit (states : StateMap) (chatID : Int)
    (st : ConversationState) (text : String)
    (hlook : lookupState states chatID = some st)
    (hawait : st.AwaitingEpisode = true) :
    route states chatID text = .episodeInput st := by
  simp [route, hlook, hawait]

theorem route_pendingShortCircuit_witness :
    route [(7, pendState)] 7 ("/start") = .episodeInput pendState :=
  route_pendingShortCircuit [(7, pendState)] 7 pendState ("/start") (by decide) rfl

/-- C8: the message whose text is exactly "/add" passes the prefix match
but is unchanged by the trim of "/add " (that pattern is not a leading run
of "/add"), so the add handler receives the non-empty query "/add" and runs
a catalog search for that literal text; the usage prompt appears only for
the empty query, i.e. the message "/add ". -/
theorem addBare_literalSearch :
    routeCommand ("/add") = Route.add ("/add") ∧
    routeCommand ("/add ") = Route.add ("") ∧
    (∀ chatID searchFn states db ok now, searchFn ("/add") = none →
      handleAdd chatID ("/add") searchFn states db ok now
        = (.text (notFoundFor ("/add")), states, db)) ∧
    (∀ chatID searchFn states db ok now,
      handleAdd chatID ("") searchFn states db ok now
        = (.text addUsageMsg, states, db)) ∧
    (∀ chatID query searchFn states db ok now,
      (handleAdd chatID query searchFn states db ok now).1 = .text addUsageMsg →
      query = "") := by
  refine ⟨by decide, by decide, ?_, ?_, ?_⟩
  · intro chatID searchFn states db ok now hs
    simp [handleAdd, hs]
  · intro chatID searchFn states db ok now
    simp [handleAdd]
  · intro chatID query searchFn states db ok now h
    by_contra hq
    rw [handleAdd, if_neg hq] at h
    have husage : strHead addUsageMsg = some 'У' := rfl
    cases hs : searchFn query with
    | none =>
      rw [hs] at h
      have := Msg.text.inj h
      refine absurd this (strNe_of_strHead _ _ ?_)
      rw [show strHead (notFoundFor query) = some 'Н' from
        strHead_append _ _ _ (by decide), husage]
      decide
    | some results =>
      cases results with
      | nil =>
        rw [hs] at h
        have := Msg.text.inj h
        refine absurd this (strNe_of_strHead _ _ ?_)
        rw [show strHead (notFoundFor query) = some 'Н' from
          strHead_append _ _ _ (by decide), husage]
        decide
      | cons res rest =>
        rw [hs] at h
        dsimp only at h
        by_cases htv : res.MediaType = "tv"
        · rw [if_pos htv, if_pos htv] at h
          have := Msg.text.inj h
          refine absurd this (strNe_of_strHead _ _ ?_)
          rw [show strHead (askEpisodeMsg res.Name) = some 'В' from
            strHead_append _ _ _ (strHead_append _ _ _ (by decide)), husage]
          decide
        · rw [if_neg htv, if_neg htv] at h
          cases ok with
          | false =>
            rw [if_neg (by simp : ¬ (false = true))] at h
            have := Msg.text.inj h
            refine absurd this (strNe_of_strHead _ _ ?_)
            rw [show strHead dbSaveErrorMsg = some 'О' from by decide, husage]
            decide
          | true =>
            rw [if_pos rfl] at h
            by_cases hp : res.PosterPath ≠ ""
            · rw [if_pos hp] at h
              exact Msg.noConfusion h
            · rw [if_neg hp] at h
              have := Msg.text.inj h
              refine absurd this (strNe_of_strHead _ _ ?_)
              rw [show strHead (addedMovieMsg res.Title
                  (if res.MediaType = "tv" then "сериал" else "фильм")) = some 'Д' from
                strHead_append _ _ _ (strHead_append _ _ _ (strHead_append _ _ _
                  (strHead_append _ _ _ (by decide)))), husage]
              decide

theorem addBare_literalSearch_witness :
    handleAdd 1 ("/add") (fun _ => none) [] [] true 0
      = (.text (notFoundFor ("/add")), [], []) :=
  addBare_literalSearch.2.2.1 1 (fun _ => none) [] [] true 0 rfl

/-- C10: on a valid episode answer, a failed insert leaves the pending
conversation state in place (the sender's next text is still routed to the
episode handler) and the table unchanged; the pending state is deleted
exactly when the insert succeeds, together with the append of the new row. -/
theorem episodeInsertFailure_keepsPending (chatID : Int) (text : String)
    (state : ConversationState)
    (searchFn : String → Option (List TMDBResult))
    (states : StateMap) (db : List Row) (now : Nat) (ep : Int)
    (hep : atoi text = some ep) (hpos : 0 ≤ ep)
    (hlook : lookupState states chatID = some state)
    (hawait : state.AwaitingEpisode = true) :
    handleEpisodeInput chatID text state searchFn states db false now
      = (.text dbSaveErrorMsg, states, db) ∧
    (∀ t2, route states chatID t2 = .episodeInput state) ∧
    ((handleEpisodeInput chatID text state searchFn states db true now).2.1
        = eraseState states chatID ∧
      (handleEpisodeInput chatID text state searchFn states db true now).2.2
        = db ++ [⟨state.Title, state.MediaType, state.TMDBID, chatID, now, ep⟩] ∧
      lookupState
        ((handleEpisodeInput chatID text state searchFn states db true now).2.1)
        chatID = none) := by
  have hpos' : ¬ ep < 0 := not_lt.mpr hpos
  refine ⟨?_, ?_, ?_⟩
  · simp [handleEpisodeInput, hep, hpos']
  · intro t2
    simp [route, hlook, hawait]
  · have hshape :
        (handleEpisodeInput chatID text state searchFn states db true now).2
          = (eraseState states chatID,
              db ++ [⟨state.Title, state.MediaType, state.TMDBID, chatID, now, ep⟩]) := by
      cases hs : searchFn state.Title with
      | none => simp [handleEpisodeInput, hep, hpos', hs]
      | some results =>
        cases results with
        | nil => simp [handleEpisodeInput, hep, hpos', hs]
        | cons r rest =>
          by_cases hc : r.ID = state.TMDBID ∧ r.PosterPath ≠ ""
          · simp [handleEpisodeInput, hep, hpos', hs, hc]
          · simp [handleEpisodeInput, hep, hpos', hs, hc]
    refine ⟨?_, ?_, ?_⟩
    · rw [show (handleEpisodeInput chatID text state searchFn states db true now).2.1
        = ((handleEpisodeInput chatID text state searchFn states db true now).2).1 from rfl,
        hshape]
    · rw [show (handleEpisodeInput chatID text state searchFn states db true now).2.2
        = ((handleEpisodeInput chatID text state searchFn states db true now).2).2 from rfl,
        hshape]
    · rw [show (handleEpisodeInput chatID text state searchFn states db true now).2.1
        = ((handleEpisodeInput chatID text state searchFn states db true now).2).1 from rfl,
        hshape]
      exact lookupState_eraseState states chatID

theorem episodeInsertFailure_keepsPending_witness :
    handleEpisodeInput 7 ("5") pendState (fun _ => none) [(7, pendState)] [] false 0
      = (.text dbSaveErrorMsg, [(7, pendState)], []) :=
  (episodeInsertFailure_keepsPending 7 ("5") pendState (fun _ => none)
    [(7, pendState)] [] 0 5 (by decide) (by decide) (by decide) rfl).1

/-- eta for strings: rebuilding a string from its characters is the identity. -/
theorem strMk_data (s : String) : String.mk s.data = s :=
  rfl

/-- A separator splits a fields scan: everything before it and everything
after it are scanned independently. -/
theorem fieldsAux_append_space (sp : Char) (hsp : isSpaceGo sp = true) :
    ∀ (xs acc ys : List Char),
      fieldsAux acc (xs ++ sp :: ys) = fieldsAux acc xs ++ fieldsAux [] ys := by
  intro xs
  induction xs with
  | nil =>
    intro acc ys
    by_cases ha : acc = []
    · subst ha
      simp [fieldsAux, hsp]
    · simp [fieldsAux, hsp, ha]
  | cons c cs ih =>
    intro acc ys
    by_cases hc : isSpaceGo c
    · by_cases ha : acc = []
      · subst ha
        simp [fieldsAux, hsp, hc, ih]
      · simp [fieldsAux, hsp, hc, ha, ih]
    · simp [fieldsAux, hc, ih]

/-- A non-empty run without separator characters is scanned as one field. -/
theorem fieldsAux_all_nonspace :
    ∀ (l acc : List Char), (∀ c ∈ l, isSpaceGo c = false) → (acc ≠ [] ∨ l ≠ []) →
      fieldsAux acc l = [acc.reverse ++ l] := by
  intro l
  induction l with
  | nil =>
    intro acc _ hne
    rcases hne with h | h
    · simp [fieldsAux, h]
    · exact absurd rfl h
  | cons c cs ih =>
    intro acc hns _
    have hc : isSpaceGo c = false := hns c (List.mem_cons_self c cs)
    have hrec := ih (c :: acc) (fun d hd => hns d (List.mem_cons_of_mem c hd))
      (Or.inl (by simp))
    simp [fieldsAux, hc, hrec]

theorem parseDigitsAcc_all_digits :
    ∀ (l : List Char) (acc n : Nat), parseDigitsAcc acc l = some n →
      ∀ c ∈ l, isDigitGo c = true := by
  intro l
  induction l with
  | nil =>
    intro acc n _ c hc
    exact absurd hc (List.not_mem_nil c)
  | cons d ds ih =>
    intro acc n h c hc
    rw [parseDigitsAcc] at h
    by_cases hd : isDigitGo d
    · rw [if_pos hd] at h
      rcases List.mem_cons.mp hc with rfl | hc'
      · exact hd
      · exact ih _ n h c hc'
    · rw [if_neg hd] at h
      exact absurd h (by simp)

theorem parseDigits_all_digits (l : List Char) (n : Nat)
    (h : parseDigits l = some n) : ∀ c ∈ l, isDigitGo c = true := by
  cases l with
  | nil => simp [parseDigits] at h
  | cons c cs => exact parseDigitsAcc_all_digits (c :: cs) 0 n h

theorem isDigitGo_not_space (c : Char) (h : isDigitGo c = true) :
    isSpaceGo c = false := by
  simp only [isDigitGo, Bool.and_eq_true, decide_eq_true_eq] at h
  simp only [isSpaceGo, Bool.or_eq_false_iff, decide_eq_false_iff_not]
  omega

/-- C6 (amended): `/update` parsing takes the trailing whitespace-delimited
token as the episode number and the remaining tokens joined by single
spaces as the lookup title; consequently, whenever the stored title is
whitespace-normal — non-empty and equal to the single-space join of its own
fields — and the episode token is a non-empty digit run of value `n`,
handling "<title> <digits>" looks up exactly that title with episode `n`.
(Titles with leading/trailing/consecutive whitespace are NOT recovered
verbatim: the lookup key is the normalized join, see the counterexample.) -/
theorem updateParse_recoversTitle (chatID : Int) (title tok : String) (n : Nat)
    (db : List Row) (ok : Bool)
    (hfne : fields title ≠ [])
    (hjoin : joinSpace (fields title) = title)
    (htok : parseDigits tok.data = some n) :
    handleUpdate chatID (title ++ " " ++ tok) db ok
      = handleUpdateCore chatID title (Int.ofNat n) db ok := by
  have hdata : (title ++ " " ++ tok).data = title.data ++ ' ' :: tok.data := by
    rw [strData_append, strData_append,
      show (" " : String).data = [' '] from rfl]
    simp
  have hdigits : ∀ c ∈ tok.data, isDigitGo c = true :=
    parseDigits_all_digits _ n htok
  have hnonspace : ∀ c ∈ tok.data, isSpaceGo c = false :=
    fun c hc => isDigitGo_not_space c (hdigits c hc)
  have htokne : tok.data ≠ [] := by
    intro h
    rw [h] at htok
    exact absurd htok (by simp [parseDigits])
  have hfc : fieldsChars (title.data ++ ' ' :: tok.data)
      = fieldsChars title.data ++ [tok.data] := by
    unfold fieldsChars
    rw [fieldsAux_append_space ' ' (by decide) title.data [] tok.data,
      fieldsAux_all_nonspace tok.data [] hnonspace (Or.inr htokne)]
    simp
  have hfields : fields (title ++ " " ++ tok) = fields title ++ [tok] := by
    unfold fields
    rw [hdata, hfc]
    simp [strMk_data]
  have hqne : title ++ " " ++ tok ≠ "" := by
    intro h
    have hd := congrArg String.data h
    rw [hdata] at hd
    simp at hd
  have hpos : 1 ≤ (fields title).length := List.length_pos.mpr hfne
  have hlen : ¬ (fields (title ++ " " ++ tok)).length < 2 := by
    rw [hfields]
    simp only [List.length_append, List.length_cons, List.length_nil]
    omega
  have hlast : (fields (title ++ " " ++ tok)).getLastD ("") = tok := by
    rw [hfields]
    exact List.getLastD_concat _ _ _
  have hdrop : (fields (title ++ " " ++ tok)).dropLast = fields title := by
    rw [hfields]
    exact List.dropLast_concat
  have hatoi : atoi tok = some (Int.ofNat n) := by
    unfold atoi
    cases htd : tok.data with
    | nil => exact absurd htd htokne
    | cons c cs =>
      rw [htd] at htok
      have hcd : isDigitGo c = true := by
        rw [htd] at hdigits
        exact hdigits c (List.mem_cons_self c cs)
      have hplus : ¬ c = '+' := by
        intro h
        rw [h] at hcd
        exact absurd hcd (by decide)
      have hminus : ¬ c = '-' := by
        intro h
        rw [h] at hcd
        exact absurd hcd (by decide)
      dsimp only
      rw [if_neg hplus, if_neg hminus, htok]
      rfl
  have hepos : ¬ (Int.ofNat n) < 0 := not_lt.mpr (Int.natCast_nonneg n)
  simp only [handleUpdate]
  rw [if_neg hqne, if_neg hlen, hlast, hatoi]
  dsimp only
  rw [if_neg hepos, hdrop, hjoin]

theorem updateParse_recoversTitle_witness :
    handleUpdate 42 ("Breaking Bad" ++ " " ++ "7") [] true
      = handleUpdateCore 42 ("Breaking Bad") (Int.ofNat 7) [] true :=
  updateParse_recoversTitle 42 ("Breaking Bad") ("7") 7 [] true
    (by decide) (by decide) (by decide)

/-- A stored show whose title contains two consecutive spaces. -/
def cexRow : Row := ⟨"A  B", "tv", 100, 1, 0, 0⟩

/-- C6 counterexample: the user has stored exactly the show title "A  B"
(two spaces), yet "/update A  B 5" — whose query after prefix trimming is
"A  B 5" — replies "not found": field splitting collapses the double space,
so the lookup key is "A B", not the stored title. -/
theorem updateTitle_counterexample :
    cexRow.title = "A  B" ∧ cexRow.media_type = "tv" ∧ cexRow.user_id = 1 ∧
    findRow [cexRow] 1 ("A  B") = some cexRow ∧
    handleUpdate 1 ("A  B 5") [cexRow] true = (notFoundUpdateMsg, [cexRow]) := by
  refine ⟨rfl, rfl, rfl, by decide, by decide⟩

/-- Non-increasing-popularity relation between two results. -/
def popGe (a b : TMDBResult) : Prop :=
  b.Popularity ≤ a.Popularity

/-- The list is sorted descending by popularity. -/
def popSorted (l : List TMDBResult) : Prop :=
  List.Pairwise popGe l

/-- Every element of `l₂` scores at most every element of `l₁`. -/
def popDom (l₁ l₂ : List TMDBResult) : Prop :=
  ∀ x ∈ l₁, ∀ y ∈ l₂, y.Popularity ≤ x.Popularity

/-- Inner loop of `sortResultsByPopularity` with `fuel` compare-swaps left:
`if results[j].Popularity < results[j+1].Popularity { swap }`, walking left
to right. -/
def bubbleInner : Nat → List TMDBResult → List TMDBResult
  | 0, l => l
  | _ + 1, [] => []
  | _ + 1, [a] => [a]
  | fuel + 1, a :: b :: rest =>
    if a.Popularity < b.Popularity then b :: bubbleInner fuel (a :: rest)
    else a :: bubbleInner fuel (b :: rest)

/-- Outer loop: pass `i` of the Go code bounds the inner loop by
`len - i - 1`, so the successive bounds are `k, k-1, ..., 1`. -/
def bubbleOuter : Nat → List TMDBResult → List TMDBResult
  | 0, l => l
  | k + 1, l => bubbleOuter k (bubbleInner (k + 1) l)

/-- `func sortResultsByPopularity(results []struct{...})`: bubble sort,
descending by popularity, `len - 1` passes. -/
def sortResultsByPopularity (l : List TMDBResult) : List TMDBResult :=
  bubbleOuter (l.length - 1) l

theorem bubbleInner_perm : ∀ (fuel : Nat) (l : List TMDBResult),
    (bubbleInner fuel l).Perm l := by
  intro fuel
  induction fuel with
  | zero => intro l; exact List.Perm.refl l
  | succ f ih =>
    intro l
    cases l with
    | nil => exact List.Perm.refl _
    | cons a t =>
      cases t with
      | nil => exact List.Perm.refl _
      | cons b rest =>
        simp only [bubbleInner]
        by_cases h : a.Popularity < b.Popularity
        · rw [if_pos h]
          exact ((ih (a :: rest)).cons b).trans (List.Perm.swap a b rest)
        · rw [if_neg h]
          exact (ih (b :: rest)).cons a

theorem bubbleInner_of_sorted : ∀ (fuel : Nat) (l : List TMDBResult),
    popSorted l → bubbleInner fuel l = l := by
  intro fuel
  induction fuel with
  | zero => intro l _; rfl
  | succ f ih =>
    intro l hs
    cases l with
    | nil => rfl
    | cons a t =>
      cases t with
      | nil => rfl
      | cons b rest =>
        simp only [bubbleInner]
        have hcons := (List.pairwise_cons.mp hs)
        have hba : b.Popularity ≤ a.Popularity := hcons.1 b (List.mem_cons_self b rest)
        rw [if_neg (not_lt.mpr hba)]
        rw [ih (b :: rest) hcons.2]

/-- One inner sweep over `l₁ ++ l₂`, where `l₂` is already a sorted tail
dominated by `l₁`: the sweep stops changing anything at the boundary, and
pushes a minimum of `l₁` onto the front of `l₂`. -/
theorem bubbleInner_split :
    ∀ (fuel : Nat) (l₁ l₂ : List TMDBResult), l₁ ≠ [] → l₁.length ≤ fuel + 1 →
      popDom l₁ l₂ → popSorted l₂ →
      ∃ l₁' μ, bubbleInner fuel (l₁ ++ l₂) = l₁' ++ μ :: l₂ ∧
        (l₁' ++ [μ]).Perm l₁ ∧ ∀ x ∈ l₁, μ.Popularity ≤ x.Popularity := by
  intro fuel
  induction fuel with
  | zero =>
    intro l₁ l₂ hne hlen _ _
    cases l₁ with
    | nil => exact absurd rfl hne
    | cons a t =>
      cases t with
      | nil =>
        refine ⟨[], a, rfl, List.Perm.refl _, ?_⟩
        intro x hx
        rw [List.mem_singleton.mp hx]
      | cons b t2 =>
        exfalso
        simp [List.length_cons] at hlen
  | succ f ih =>
    intro l₁ l₂ hne hlen hdom hsorted
    cases l₁ with
    | nil => exact absurd rfl hne
    | cons a t =>
      cases t with
      | nil =>
        have hsa : popSorted (a :: l₂) := by
          rw [popSorted, List.pairwise_cons]
          exact ⟨fun y hy => hdom a (List.mem_cons_self a []) y hy, hsorted⟩
        refine ⟨[], a, ?_, List.Perm.refl _, ?_⟩
        · simpa using bubbleInner_of_sorted (f + 1) (a :: l₂) hsa
        · intro x hx
          rw [List.mem_singleton.mp hx]
      | cons b t2 =>
        rw [show (a :: b :: t2) ++ l₂ = a :: b :: (t2 ++ l₂) from rfl]
        simp only [bubbleInner]
        have hlen' : (t2.length + 1) ≤ f + 1 := by
          simp [List.length_cons] at hlen
          omega
        by_cases hab : a.Popularity < b.Popularity
        · rw [if_pos hab]
          obtain ⟨l₁', μ, heq, hperm, hmin⟩ :=
            ih (a :: t2) l₂ (by simp) (by simpa using hlen')
              (fun x hx y hy => hdom x (by
                rcases List.mem_cons.mp hx with rfl | hx'
                · exact List.mem_cons_self x (b :: t2)
                · exact List.mem_cons_of_mem a (List.mem_cons_of_mem b hx')) y hy)
              hsorted
          rw [show a :: (t2 ++ l₂) = (a :: t2) ++ l₂ from rfl, heq]
          refine ⟨b :: l₁', μ, rfl, ?_, ?_⟩
          · have h1 : ((b :: l₁') ++ [μ]) = b :: (l₁' ++ [μ]) := rfl
            rw [h1]
            exact (hperm.cons b).trans (List.Perm.swap a b t2)
          · intro x hx
            rcases List.mem_cons.mp hx with rfl | hx'
            · exact hmin x (List.mem_cons_self x t2)
            · rcases List.mem_cons.mp hx' with rfl | hx2
              · exact le_trans (hmin a (List.mem_cons_self a t2)) (le_of_lt hab)
              · exact hmin x (List.mem_cons_of_mem a hx2)
        · rw [if_neg hab]
          have hba : b.Popularity ≤ a.Popularity := not_lt.mp hab
          obtain ⟨l₁', μ, heq, hperm, hmin⟩ :=
            ih (b :: t2) l₂ (by simp) (by simpa using hlen')
              (fun x hx y hy => hdom x (List.mem_cons_of_mem a hx) y hy)
              hsorted
          rw [show b :: (t2 ++ l₂) = (b :: t2) ++ l₂ from rfl, heq]
          refine ⟨a :: l₁', μ, rfl, ?_, ?_⟩
          · have h1 : ((a :: l₁') ++ [μ]) = a :: (l₁' ++ [μ]) := rfl
            rw [h1]
            exact hperm.cons a
          · intro x hx
            rcases List.mem_cons.mp hx with rfl | hx'
            · exact le_trans (hmin b (List.mem_cons_self b t2)) hba
            · exact hmin x hx'

theorem bubbleOuter_perm : ∀ (k : Nat) (l : List TMDBResult),
    (bubbleOuter k l).Perm l := by
  intro k
  induction k with
  | zero => intro l; exact List.Perm.refl l
  | succ k ih =>
    intro l
    rw [bubbleOuter]
    exact (ih _).trans (bubbleInner_perm (k + 1) l)

theorem bubbleOuter_of_sorted : ∀ (k : Nat) (l : List TMDBResult),
    popSorted l → bubbleOuter k l = l := by
  intro k
  induction k with
  | zero => intro l _; rfl
  | succ k ih =>
    intro l hs
    rw [bubbleOuter, bubbleInner_of_sorted (k + 1) l hs]
    exact ih l hs

theorem bubbleOuter_sorted :
    ∀ (k : Nat) (l₁ l₂ : List TMDBResult), l₁.length ≤ k + 1 → popDom l₁ l₂ →
      popSorted l₂ → popSorted (bubbleOuter k (l₁ ++ l₂)) := by
  intro k
  induction k with
  | zero =>
    intro l₁ l₂ hlen hdom hsorted
    cases l₁ with
    | nil => simpa [bubbleOuter] using hsorted
    | cons a t =>
      cases t with
      | nil =>
        show popSorted ([a] ++ l₂)
        rw [List.singleton_append, popSorted, List.pairwise_cons]
        exact ⟨fun y hy => hdom a (List.mem_cons_self a []) y hy, hsorted⟩
      | cons b t2 =>
        exfalso
        simp [List.length_cons] at hlen
  | succ k ih =>
    intro l₁ l₂ hlen hdom hsorted
    cases l₁ with
    | nil =>
      simp only [List.nil_append]
      rw [bubbleOuter_of_sorted (k + 1) l₂ hsorted]
      exact hsorted
    | cons a t =>
      rw [bubbleOuter]
      obtain ⟨l₁', μ, heq, hperm, hmin⟩ :=
        bubbleInner_split (k + 1) (a :: t) l₂ (by simp) (by simpa using hlen)
          hdom hsorted
      rw [heq]
      have hlen' : l₁'.length ≤ k + 1 := by
        have hl := hperm.length_eq
        simp [List.length_append] at hl
        simp [List.length_cons] at hlen
        omega
      have hμmem : μ ∈ a :: t := hperm.mem_iff.mp (by simp)
      have hsub : ∀ x ∈ l₁', x ∈ a :: t :=
        fun x hx => hperm.mem_iff.mp (List.mem_append.mpr (Or.inl hx))
      have hdom' : popDom l₁' (μ :: l₂) := by
        intro x hx y hy
        rcases List.mem_cons.mp hy with rfl | hy'
        · exact hmin x (hsub x hx)
        · exact hdom x (hsub x hx) y hy'
      have hsorted' : popSorted (μ :: l₂) := by
        rw [popSorted, List.pairwise_cons]
        exact ⟨fun y hy => hdom μ hμmem y hy, hsorted⟩
      exact ih l₁' (μ :: l₂) hlen' hdom' hsorted'

theorem sortResultsByPopularity_perm (l : List TMDBResult) :
    (sortResultsByPopularity l).Perm l :=
  bubbleOuter_perm _ l

theorem sortResultsByPopularity_sorted (l : List TMDBResult) :
    popSorted (sortResultsByPopularity l) := by
  cases l with
  | nil => simp [sortResultsByPopularity, bubbleOuter, popSorted]
  | cons a t =>
    have h := bubbleOuter_sorted ((a :: t).length - 1) (a :: t) []
      (by simp) (by intro x _ y hy; exact absurd hy (List.not_mem_nil y))
      (by simp [popSorted])
    simpa [sortResultsByPopularity] using h

/-- The reply of `handleTop`: which failure branch fired, or the list of
results emitted (each is then formatted and sent in order). -/
inductive TopReply where
  | fetchMoviesFailed
  | fetchShowsFailed
  | nothingFound
  | emitted (results : List TMDBResult)
deriving DecidableEq

/-- `func handleTop(chatID int64)`: fetch both popular listings (each an
externally decoded body, stamped by `getTopMovies`/`getTopTVShows`), merge,
bubble-sort by popularity, emit the first `min(20, len)` results. -/
def handleTop (moviesDecoded showsDecoded : Option TMDBResponse) : TopReply :=
  match getTopMovies moviesDecoded with
  | none => .fetchMoviesFailed
  | some movies =>
    match getTopTVShows showsDecoded with
    | none => .fetchShowsFailed
    | some shows =>
      let allResults := movies.Results ++ shows.Results
      if allResults.length = 0 then .nothingFound
      else .emitted ((sortResultsByPopularity allResults).take (goMin 20 allResults.length))

/-- The merged list a successful `/top` works on: both listings decoded and
kind-stamped, movies first. -/
def topMerged (m s : TMDBResponse) : List TMDBResult :=
  stampResults ("movie") m.Results ++ stampResults ("tv") s.Results

/-- C1: when both popular listings decode and the merged list is non-empty,
`/top` emits exactly `min(20, |merged|)` entries, the emitted sequence is
non-increasing by popularity, and the quadratic sort indeed produces a
permutation of the merged list that is sorted descending by popularity. -/
theorem topEmission_spec (m s : TMDBResponse) (hne : topMerged m s ≠ []) :
    ∃ out, handleTop (some m) (some s) = .emitted out ∧
      out.length = min 20 (topMerged m s).length ∧
      popSorted out ∧
      (sortResultsByPopularity (topMerged m s)).Perm (topMerged m s) ∧
      popSorted (sortResultsByPopularity (topMerged m s)) := by
  have hperm := sortResultsByPopularity_perm (topMerged m s)
  have hsort := sortResultsByPopularity_sorted (topMerged m s)
  have hlen0 : ¬ (topMerged m s).length = 0 := by
    simpa [List.length_eq_zero] using hne
  refine ⟨(sortResultsByPopularity (topMerged m s)).take (goMin 20 (topMerged m s).length),
    ?_, ?_, ?_, hperm, hsort⟩
  · simp only [handleTop, getTopMovies, getTopTVShows]
    rw [show stampResults ("movie") m.Results ++ stampResults ("tv") s.Results
      = topMerged m s from rfl]
    rw [if_neg hlen0]
  · rw [List.length_take, hperm.length_eq]
    have hg : goMin 20 (topMerged m s).length = min 20 (topMerged m s).length := by
      unfold goMin
      split <;> omega
    rw [hg]
    exact min_eq_left (min_le_right 20 (topMerged m s).length)
  · exact List.Pairwise.sublist (List.take_sublist _ _) hsort

/-- Concrete results for the `/top` witness. -/
def topW1 : TMDBResult := ⟨1, "M", "", "x", "", "", "", "", 1⟩

def topW2 : TMDBResult := ⟨2, "", "S", "y", "", "", "", "", 2⟩

theorem topEmission_spec_witness :
    ∃ out, handleTop (some ⟨[topW1]⟩) (some ⟨[topW2]⟩) = .emitted out ∧
      out.length = min 20 (topMerged ⟨[topW1]⟩ ⟨[topW2]⟩).length ∧
      popSorted out ∧
      (sortResultsByPopularity (topMerged ⟨[topW1]⟩ ⟨[topW2]⟩)).Perm
        (topMerged ⟨[topW1]⟩ ⟨[topW2]⟩) ∧
      popSorted (sortResultsByPopularity (topMerged ⟨[topW1]⟩ ⟨[topW2]⟩)) :=
  topEmission_spec ⟨[topW1]⟩ ⟨[topW2]⟩ (by decide)

end TgBot
